import Mathlib

/-
Verification of the grouping-and-aggregation pipeline of the
Efficiency_plots repository (plot_efficiencies.py, txt_to_csv.py).

Shallow embedding conventions:
- float64 fields are modelled as exact rationals (ℚ);
- a pandas DataFrame of measurements is a List MeasurementRecord, in file
  order; the derived columns added by assignment are modelled explicitly
  (EffDataFrame) where a claim is about mutation;
- df.sort_values("Speed") with the pandas default kind="quicksort" is
  modelled by the generic introspective argsort of numpy
  (npysort quicksort for argument sorts: median-of-3 quicksort with an
  insertion-sort cutoff at segments of at most SMALL_QUICKSORT = 15
  positions, i.e. at most 16 elements, and a heapsort fallback when the
  recursion depth exceeds 2*msb(n)); pandas documents that only the
  mergesort/stable kinds are stable, so tie order is whatever this
  algorithm produces;
- group.pivot_table(index, columns, values, aggfunc=mean) is modelled by
  the sorted distinct key lists plus an association list from observed
  (Speed, RoundedDeltap) pairs to the mean of the metric over the matching
  records; a missing cell is simply absent from the association list;
- Series.round() and Series.round(1) use the numpy rounding rule, round
  half to even; the function roundHalfEven below implements it on ℚ with
  integer arithmetic on the numerator and denominator;
- pd.read_csv performs per-column dtype inference and keeps fields that do
  not parse as numbers (the column becomes a non-numeric column); it is
  modelled on rows of already-classified cells (CsvCell);
- csv.writer of txt_to_csv.py writes with the default excel dialect,
  whose line terminator is CRLF; the model produces the output text.
-/

/-- One data row of the CSV: Speed, Displacement, Deltap and the three
efficiencies, all floating-point in the source, modelled as ℚ. -/
structure MeasurementRecord where
  speed : ℚ
  displacement : ℚ
  deltap : ℚ
  etat : ℚ
  etav : ℚ
  etam : ℚ
deriving DecidableEq

instance : Inhabited MeasurementRecord :=
  ⟨⟨0, 0, 0, 0, 0, 0⟩⟩

/-- The three efficiency metrics plotted by every variant. -/
inductive Metric
  | etat
  | etav
  | etam
deriving DecidableEq

/-- Column lookup for a metric. -/
def metricVal : Metric → MeasurementRecord → ℚ
  | Metric.etat, r => r.etat
  | Metric.etav, r => r.etav
  | Metric.etam, r => r.etam

/-- The metric iteration order of efficiency_labels in the source. -/
def efficiency_metrics : List Metric :=
  [Metric.etat, Metric.etav, Metric.etam]

/-- Floor of a rational, computed on the numerator and denominator with
integer division only (kernel-computable; equal to Int.floor, see
qfloor_eq_floor). -/
def qfloor (q : ℚ) : ℤ := q.num / (q.den : ℤ)

/-- Round half to even, the rounding rule of numpy round (used by
Series.round in load_and_prepare_data and the two contour functions).
The comparison of the fractional part with 1/2 is done with integer
arithmetic so that the function evaluates inside the kernel. -/
def roundHalfEven (q : ℚ) : ℤ :=
  if 2 * (q.num - qfloor q * (q.den : ℤ)) < (q.den : ℤ) then qfloor q
  else if (q.den : ℤ) < 2 * (q.num - qfloor q * (q.den : ℤ)) then qfloor q + 1
  else if qfloor q % 2 = 0 then qfloor q else qfloor q + 1

/-- RoundedDisplacement: df.Displacement.round().astype(int)
(line 19 of plot_efficiencies.py). -/
def dispKey (r : MeasurementRecord) : ℤ := roundHalfEven r.displacement

/-- RoundedDeltap: df.Deltap.round(1), rounding to the nearest tenth
(line 20 of plot_efficiencies.py). -/
def dpKey (r : MeasurementRecord) : ℚ := (roundHalfEven (r.deltap * 10) : ℚ) / 10

/-- The pair of rounded keys as computed at lines 19 to 20
(load_and_prepare_data). -/
def keysAtLoad (r : MeasurementRecord) : ℤ × ℚ :=
  (roundHalfEven r.displacement, (roundHalfEven (r.deltap * 10) : ℚ) / 10)

/-- The pair of rounded keys as recomputed at lines 116 to 117
(plot_efficiency_contours). -/
def keysAtContours (r : MeasurementRecord) : ℤ × ℚ :=
  (roundHalfEven r.displacement, (roundHalfEven (r.deltap * 10) : ℚ) / 10)

/-- The pair of rounded keys as recomputed at lines 151 to 152
(plot_total_efficiency_field). -/
def keysAtField (r : MeasurementRecord) : ℤ × ℚ :=
  (roundHalfEven r.displacement, (roundHalfEven (r.deltap * 10) : ℚ) / 10)

/- ----------------------------------------------------------------
numpy introspective argsort (npysort quicksort.c.src, aquicksort),
the sort behind df.sort_values("Speed") with the default
kind="quicksort". tosort is the index list, v the key column.
---------------------------------------------------------------- -/

/-- Key of the element at position i of the index list t. -/
def vAt (v : List ℚ) (t : List Nat) (i : Nat) : ℚ := v.getD (t.getD i 0) 0

/-- Swap two positions of the index list. -/
def swapIdx (t : List Nat) (i j : Nat) : List Nat :=
  let a := t.getD i 0
  let b := t.getD j 0
  (t.set i b).set j a

/-- The do-increment-while scan of the partition phase:
do ++pi while v[tosort[pi]] smaller than the pivot value. -/
def scanUp (v : List ℚ) (vp : ℚ) : Nat → List Nat → Nat → Nat
  | 0, _, pi => pi + 1
  | fuel+1, t, pi =>
    let pi' := pi + 1
    if vAt v t pi' < vp then scanUp v vp fuel t pi' else pi'

/-- The do-decrement-while scan of the partition phase:
do --pj while the pivot value is smaller than v[tosort[pj]]. -/
def scanDown (v : List ℚ) (vp : ℚ) : Nat → List Nat → Nat → Nat
  | 0, _, pj => pj - 1
  | fuel+1, t, pj =>
    let pj' := pj - 1
    if vp < vAt v t pj' then scanDown v vp fuel t pj' else pj'

/-- The inner swap loop of the quicksort partition; returns the updated
index list and the final left scan position pi. -/
def partitionLoop (v : List ℚ) (vp : ℚ) : Nat → List Nat → Nat → Nat → List Nat × Nat
  | 0, t, pi, _ => (t, pi)
  | fuel+1, t, pi, pj =>
    let pi' := scanUp v vp (t.length + 2) t pi
    let pj' := scanDown v vp (t.length + 2) t pj
    if pj' ≤ pi' then (t, pi')
    else partitionLoop v vp fuel (swapIdx t pi' pj') pi' pj'

/-- One step of the insertion sort that finishes small segments: the C
loop shifts the larger predecessors of the inserted index one slot to
the right and drops the index in front of the first predecessor that is
not larger. Rendered functionally: acc is the already sorted part of
the segment in reversed order (rightmost element first), and insRev
walks it from the right exactly as the C loop walks the array. -/
def insRev (v : List ℚ) (vi : Nat) : List Nat → List Nat
  | [] => [vi]
  | k :: rest =>
    if v.getD vi 0 < v.getD k 0 then k :: insRev v vi rest else vi :: k :: rest

/-- Insertion sort of a segment of indices (reversed accumulator fold). -/
def insFold (v : List ℚ) : List Nat → List Nat → List Nat
  | acc, [] => acc
  | acc, x :: xs => insFold v (insRev v x acc) xs

/-- Overwrite the positions pl, pl+1, ... of t with the entries of s. -/
def applySeg (t : List Nat) (pl : Nat) (s : List Nat) : List Nat :=
  t.take pl ++ s ++ t.drop (pl + s.length)

/-- In-place insertion sort of the segment of positions pl..pr. -/
def insSegment (v : List ℚ) (t : List Nat) (pl pr : Nat) : List Nat :=
  applySeg t pl (insFold v [] ((t.drop pl).take (pr + 1 - pl))).reverse

/-- One-based read into the heap segment (the C code offsets the segment
base pointer by one for heap indexing). -/
def aGet (t : List Nat) (pl k : Nat) : Nat := t.getD (pl + k - 1) 0

/-- One-based write into the heap segment. -/
def aSet (t : List Nat) (pl k : Nat) (x : Nat) : List Nat := t.set (pl + k - 1) x

/-- Sift-down loop shared by the two phases of aheapsort. -/
def siftLoop (v : List ℚ) (pl n tmpIdx : Nat) : Nat → List Nat → Nat → Nat → List Nat
  | 0, t, i, _ => aSet t pl i tmpIdx
  | fuel+1, t, i, j =>
    if j ≤ n then
      let j' := if j < n ∧ v.getD (aGet t pl j) 0 < v.getD (aGet t pl (j+1)) 0 then j + 1 else j
      if v.getD tmpIdx 0 < v.getD (aGet t pl j') 0 then
        siftLoop v pl n tmpIdx fuel (aSet t pl i (aGet t pl j')) j' (j' + j')
      else aSet t pl i tmpIdx
    else aSet t pl i tmpIdx

/-- Heapify phase of aheapsort (l from n/2 down to 1). -/
def heapBuild (v : List ℚ) (pl n : Nat) : Nat → List Nat → Nat → List Nat
  | 0, t, _ => t
  | fuel+1, t, l =>
    if l = 0 then t
    else heapBuild v pl n fuel (siftLoop v pl n (aGet t pl l) (n+2) t l (2*l)) (l-1)

/-- Extraction phase of aheapsort (n down to 2). -/
def heapExtract (v : List ℚ) (pl : Nat) : Nat → List Nat → Nat → List Nat
  | 0, t, _ => t
  | fuel+1, t, n =>
    if n ≤ 1 then t
    else
      let tmp := aGet t pl n
      let t' := aSet t pl n (aGet t pl 1)
      let n' := n - 1
      heapExtract v pl fuel (siftLoop v pl n' tmp (n'+2) t' 1 2) n'

/-- aheapsort of the segment of length n starting at position pl, the
depth-limit fallback of the introspective sort. -/
def aheapsortSeg (v : List ℚ) (t : List Nat) (pl n : Nat) : List Nat :=
  heapExtract v pl (n+1) (heapBuild v pl n (n/2+1) t (n/2)) n

/-- Position of the most significant bit (npy_get_msb), fuelled. -/
def msbFuel : Nat → Nat → Nat
  | 0, _ => 0
  | fuel+1, n => if n ≤ 1 then 0 else msbFuel fuel (n / 2) + 1

/-- npy_get_msb of the array length, used for the depth limit. -/
def npyGetMsb (n : Nat) : Nat := msbFuel n n

/-- Main loop of aquicksort: partition segments larger than
SMALL_QUICKSORT = 15 (median-of-3 pivot, push the larger half on the
stack), finish small segments with insertion sort, and fall back to
aheapsort when the depth budget is exhausted. -/
def introLoop (v : List ℚ) : Nat → List Nat → Nat → Nat → List (Nat × Nat) → Int → List Nat
  | 0, t, _, _, _, _ => t
  | fuel+1, t, pl, pr, stack, depth =>
    if 15 < pr - pl then
      if depth < 0 then
        let t' := aheapsortSeg v t pl (pr - pl + 1)
        match stack with
        | [] => t'
        | (a, b) :: rest => introLoop v fuel t' a b rest depth
      else
        let pm := pl + (pr - pl) / 2
        let t1 := if vAt v t pm < vAt v t pl then swapIdx t pm pl else t
        let t2 := if vAt v t1 pr < vAt v t1 pm then swapIdx t1 pr pm else t1
        let t3 := if vAt v t2 pm < vAt v t2 pl then swapIdx t2 pm pl else t2
        let vp := vAt v t3 pm
        let t4 := swapIdx t3 pm (pr - 1)
        let tp := partitionLoop v vp (t4.length + 2) t4 pl (pr - 1)
        let t5 := swapIdx tp.1 tp.2 (pr - 1)
        let pi := tp.2
        if pi - pl < pr - pi then
          introLoop v fuel t5 pl (pi - 1) ((pi+1, pr) :: stack) (depth - 1)
        else
          introLoop v fuel t5 (pi+1) pr ((pl, pi - 1) :: stack) (depth - 1)
    else
      let t' := insSegment v t pl pr
      match stack with
      | [] => t'
      | (a, b) :: rest => introLoop v fuel t' a b rest depth

/-- numpy argsort of a key column with the default kind="quicksort"
(the sort pandas nargsort delegates to for a single sort column). The
fuel bounds the loop iterations; one partition either pushes one stack
entry and shrinks the segment or one insertion pass pops one entry, so
4*n+16 iterations are ample. -/
def npArgsortL (v : List ℚ) : List Nat :=
  introLoop v (4 * v.length + 16) (List.range v.length) 0 (v.length - 1) [] (2 * npyGetMsb v.length)

/-- The index order produced by sub_group.sort_values("Speed")
(lines 45 and 87 of plot_efficiencies.py). -/
def speedOrder (g : List MeasurementRecord) : List Nat :=
  npArgsortL (g.map (fun r => r.speed))

/-- sub_group.sort_values("Speed"): take the rows of the group in the
order of the argsort of the Speed column. -/
def sort_values_speed (g : List MeasurementRecord) : List MeasurementRecord :=
  (speedOrder g).map (fun i => g.getD i default)

/-- The series builder: the ordered (Speed, metric) pairs plotted by
ax.plot(sub_group.Speed, sub_group[eff_key]) at lines 45 to 46. -/
def seriesPairs (g : List MeasurementRecord) (m : Metric) : List (ℚ × ℚ) :=
  (sort_values_speed g).map (fun r => (r.speed, metricVal m r))

/- ----------------------------------------------------------------
Sorted distinct key lists. Python sorted() and the sorted group labels
of pandas groupby and pivot_table are ascending sorts of distinct
values; distinctness is taken in order of first appearance as
Series.unique() does.
---------------------------------------------------------------- -/

/-- Insert into an ascending list, before the first element that is not
smaller. -/
def insertLe {α : Type} [LinearOrder α] (x : α) : List α → List α
  | [] => [x]
  | y :: ys => if x ≤ y then x :: y :: ys else y :: insertLe x ys

/-- Ascending insertion sort. -/
def sortLin {α : Type} [LinearOrder α] (l : List α) : List α :=
  l.foldr insertLe []

/-- Distinct values in order of first appearance (Series.unique),
with an explicit seen accumulator. -/
def firstDedupAux {α : Type} [DecidableEq α] (seen : List α) : List α → List α
  | [] => []
  | x :: xs => if x ∈ seen then firstDedupAux seen xs else x :: firstDedupAux (x :: seen) xs

/-- Distinct values in order of first appearance. -/
def firstDedup {α : Type} [DecidableEq α] (l : List α) : List α :=
  firstDedupAux [] l

/-- sorted(series.unique()): the sorted distinct values of a column. -/
def sortedUnique {α : Type} [DecidableEq α] [LinearOrder α] (l : List α) : List α :=
  sortLin (firstDedup l)

/- ----------------------------------------------------------------
Grouping (df.groupby) and the per-displacement line-plot pipeline of
plot_efficiencies (lines 34 to 46).
---------------------------------------------------------------- -/

/-- The sorted distinct RoundedDisplacement group labels of
df.groupby("RoundedDisplacement"). -/
def dispKeys (df : List MeasurementRecord) : List ℤ :=
  sortedUnique (df.map dispKey)

/-- The member rows of one displacement group, in input order. -/
def dispGroup (df : List MeasurementRecord) (d : ℤ) : List MeasurementRecord :=
  df.filter (fun r => dispKey r = d)

/-- The member rows of one pressure subgroup of a displacement group
(disp_group[disp_group.RoundedDeltap == dp], line 45), in input order. -/
def dpSubgroup (g : List MeasurementRecord) (dp : ℚ) : List MeasurementRecord :=
  g.filter (fun r => dpKey r = dp)

/-- unique_dps of line 40: sorted distinct RoundedDeltap values of the
displacement group. -/
def unique_dps (g : List MeasurementRecord) : List ℚ :=
  sortedUnique (g.map dpKey)

/-- step of line 41: max(len(unique_dps) // 8, 1). -/
def curveStep (g : List MeasurementRecord) : Nat :=
  max ((unique_dps g).length / 8) 1

/-- Python extended slicing l[::k] for a positive stride k, fuelled by
the list length. -/
def sliceStep {α : Type} (k : Nat) : Nat → List α → List α
  | 0, _ => []
  | _+1, [] => []
  | fuel+1, x :: xs => x :: sliceStep k fuel (xs.drop (k - 1))

/-- filtered_dps of line 42: unique_dps[::step]. -/
def filtered_dps (g : List MeasurementRecord) : List ℚ :=
  sliceStep (curveStep g) (unique_dps g).length (unique_dps g)

/- ----------------------------------------------------------------
pivot_table (lines 121 to 126 and 155 to 160) and the two contour
variants.
---------------------------------------------------------------- -/

/-- Arithmetic mean of a list of rationals. -/
def meanQ (l : List ℚ) : ℚ := l.sum / l.length

/-- The records of a group matching one (Speed, RoundedDeltap) cell. -/
def cellRecords (g : List MeasurementRecord) (s d : ℚ) : List MeasurementRecord :=
  g.filter (fun r => r.speed = s ∧ dpKey r = d)

/-- Association lookup by key. -/
def assocFind {κ β : Type} [DecidableEq κ] (k : κ) : List (κ × β) → Option β
  | [] => none
  | e :: es => if e.1 = k then some e.2 else assocFind k es

/-- A pivot: row labels (distinct Speed values, ascending), column
labels (distinct RoundedDeltap values, ascending), and the aggregated
cells as an association list over the observed key pairs. -/
structure Pivot where
  rows : List ℚ
  cols : List ℚ
  agg : List ((ℚ × ℚ) × ℚ)

/-- group.pivot_table(index=Speed, columns=RoundedDeltap, values=metric,
aggfunc=mean): group by the observed (Speed, RoundedDeltap) pairs, take
the mean of the metric in each, and unstack to sorted distinct row and
column labels. Cells without records are absent (NaN in pandas),
not zero. -/
def pivot_table (g : List MeasurementRecord) (m : Metric) : Pivot :=
  { rows := sortedUnique (g.map (fun r => r.speed))
    cols := sortedUnique (g.map dpKey)
    agg := (firstDedup (g.map (fun r => (r.speed, dpKey r)))).map
      (fun k => (k, meanQ ((cellRecords g k.1 k.2).map (metricVal m)))) }

/-- Cell access of the pivot: the mean at an observed key pair, absent
otherwise. -/
def pivotCell (p : Pivot) (s d : ℚ) : Option ℚ :=
  assocFind (s, d) p.agg

/-- The pivot built for one displacement group and metric. -/
def pivotFor (df : List MeasurementRecord) (d : ℤ) (m : Metric) : Pivot :=
  pivot_table (dispGroup df d) m

/-- pivot.shape[0] < 2 or pivot.shape[1] < 2: not enough data to
contour (lines 128 and 162). -/
def degeneratePivot (p : Pivot) : Prop :=
  p.rows.length < 2 ∨ p.cols.length < 2

instance (p : Pivot) : Decidable (degeneratePivot p) := by
  unfold degeneratePivot
  infer_instance

/-- The contour renders emitted by plot_efficiency_contours: one per
displacement group and metric whose pivot has at least 2 rows and 2
columns; degenerate pivots are skipped by the continue of line 129. -/
def contourOutputs (df : List MeasurementRecord) : List (ℤ × Metric × Pivot) :=
  (dispKeys df).flatMap (fun d =>
    efficiency_metrics.filterMap (fun m =>
      if degeneratePivot (pivotFor df d m) then none else some (d, m, pivotFor df d m)))

/-- The renders emitted by plot_total_efficiency_field: Etat only, same
degeneracy skip (line 162). -/
def fieldOutputs (df : List MeasurementRecord) : List (ℤ × Pivot) :=
  (dispKeys df).filterMap (fun d =>
    if degeneratePivot (pivotFor df d Metric.etat) then none
    else some (d, pivotFor df d Metric.etat))

/- ----------------------------------------------------------------
plot_efficiencies_sep (lines 61 to 102): filter near each target
pressure, skip empty groups, and plot the per-displacement series.
---------------------------------------------------------------- -/

/-- target_pressures of line 64, in MPa. -/
def target_pressures : List ℚ := [11, 32, 38]

/-- The filter of line 75: rows whose raw Deltap is within the
tolerance 0.2 of the target. -/
def sepFilter (df : List MeasurementRecord) (t : ℚ) : List MeasurementRecord :=
  df.filter (fun r => |r.deltap - t| ≤ 1/5)

/-- The plots produced for one non-empty target group: for every metric,
the per-displacement sorted series of lines 86 to 88. -/
def sepPlotsFor (g : List MeasurementRecord) : List (Metric × List (ℤ × List (ℚ × ℚ))) :=
  efficiency_metrics.map (fun m =>
    (m, (dispKeys g).map (fun d => (d, seriesPairs (dispGroup g d) m))))

/-- The target loop of plot_efficiencies_sep: an empty filtered group
prints a message and continues (lines 77 to 79), a non-empty one is
plotted. -/
def processTargets (df : List MeasurementRecord) : List ℚ → List (ℚ × List (Metric × List (ℤ × List (ℚ × ℚ))))
  | [] => []
  | t :: ts =>
    (if sepFilter df t = [] then [] else [(t, sepPlotsFor (sepFilter df t))]) ++ processTargets df ts

/-- plot_efficiencies_sep over its fixed target list. -/
def plot_efficiencies_sep (df : List MeasurementRecord) : List (ℚ × List (Metric × List (ℤ × List (ℚ × ℚ)))) :=
  processTargets df target_pressures

/- ----------------------------------------------------------------
The reader (load_and_prepare_data, lines 15 to 22) and the in-place
column assignments of the two contour functions (lines 116 to 117 and
151 to 152).
---------------------------------------------------------------- -/

/-- A CSV field after the per-field parse attempt of the pandas C
tokenizer: a field that parses as a number, or the raw text of one that
does not. -/
inductive CsvCell
  | num (q : ℚ)
  | str (s : String)
deriving DecidableEq

/-- Whether the field parsed as a number. -/
def CsvCell.isNum : CsvCell → Bool
  | CsvCell.num _ => true
  | CsvCell.str _ => false

/-- The frame pd.read_csv returns: the data rows exactly as tokenized,
plus the per-column dtype inference result (a column is numeric exactly
when every one of its fields parsed as a number; otherwise the column
keeps its unparsed fields as objects and no error is raised). -/
structure CsvFrame where
  colNames : List String
  rows : List (List CsvCell)
  numericCol : List Bool
deriving DecidableEq

/-- pd.read_csv (line 16): no per-field failure aborts the read; dtype
inference marks mixed columns non-numeric and every row is kept, in
file order, with no filtering and no deduplication. -/
def read_csv (colNames : List String) (rows : List (List CsvCell)) : CsvFrame :=
  { colNames := colNames
    rows := rows
    numericCol := (List.range colNames.length).map
      (fun j => rows.all (fun r => (r.getD j (CsvCell.num 0)).isNum)) }

/-- Modelled from the spec: the Reader contract of section 4.1, whose
described behaviour (fail the whole read with a ParseError naming the
offending row and field) is not implemented by pd.read_csv. Scans rows
in order and reports the first (row, field) position whose field does
not convert. -/
def specReader (rows : List (List CsvCell)) : Except (Nat × Nat) (List (List CsvCell)) :=
  match rows.findIdx? (fun r => ¬ r.all CsvCell.isNum) with
  | some i =>
    Except.error (i, ((rows.getD i []).findIdx (fun c => ¬ c.isNum)))
  | none => Except.ok rows

/-- A DataFrame with the two derived columns made explicit, to model the
in-place column assignments df[col] = ... of the source. none means the
column is absent from the frame. -/
structure EffDataFrame where
  recs : List MeasurementRecord
  roundedDisplacementCol : Option (List ℤ)
  roundedDeltapCol : Option (List ℚ)
deriving DecidableEq

/-- load_and_prepare_data (lines 15 to 22): read the rows and assign the
two rounded key columns. -/
def load_and_prepare_data (rs : List MeasurementRecord) : EffDataFrame :=
  ⟨rs, some (rs.map dispKey), some (rs.map dpKey)⟩

/-- plot_efficiency_contours (lines 106 to 146): lines 116 to 117
assign the rounded key columns onto the caller frame in place before
grouping; the function returns its renders and the frame as left behind. -/
def plot_efficiency_contours (df : EffDataFrame) : List (ℤ × Metric × Pivot) × EffDataFrame :=
  (contourOutputs df.recs, ⟨df.recs, some (df.recs.map dispKey), some (df.recs.map dpKey)⟩)

/-- plot_total_efficiency_field (lines 148 to 190): lines 151 to 152
assign the rounded key columns in place, as in the contour variant. -/
def plot_total_efficiency_field (df : EffDataFrame) : List (ℤ × Pivot) × EffDataFrame :=
  (fieldOutputs df.recs, ⟨df.recs, some (df.recs.map dispKey), some (df.recs.map dpKey)⟩)

/- ----------------------------------------------------------------
txt_to_csv.py: csv.reader to csv.writer row copy. The writer uses the
default excel dialect: minimal quoting and the CRLF line terminator.
---------------------------------------------------------------- -/

/-- Whether csv.writer must quote a field under QUOTE_MINIMAL. -/
def csvNeedsQuote (s : String) : Bool :=
  s.data.any (fun c => c == ',' || c == '"' || c == '\n' || c == '\r')

/-- Double every quote character of a quoted field body. -/
def escQuotes : List Char → List Char
  | [] => []
  | c :: cs => if c == '"' then '"' :: '"' :: escQuotes cs else c :: escQuotes cs

/-- One written field under QUOTE_MINIMAL. -/
def csvField (s : String) : String :=
  if csvNeedsQuote s then "\"" ++ String.mk (escQuotes s.data) ++ "\"" else s

/-- Comma-join of the written fields of a row. -/
def csvLine : List String → String
  | [] => ""
  | [x] => csvField x
  | x :: xs => csvField x ++ "," ++ csvLine xs

/-- convert of txt_to_csv.py (lines 14 to 20): write every tokenized
row back out through csv.writer; the excel dialect terminates every
row with CRLF. -/
def convert (rows : List (List String)) : String :=
  (rows.map (fun r => csvLine r ++ "\r\n")).foldr (fun a b => a ++ b) ""

/- ----------------------------------------------------------------
Specification-side definitions (used to state the claims) and concrete
example inputs.
---------------------------------------------------------------- -/

/-- Strict order on positions of a key column: smaller key, or equal
key and smaller original position. A stable ascending sort is exactly
an enumeration that is increasing for this order. -/
def idxKeyLt (v : List ℚ) (i j : Nat) : Prop :=
  v.getD i 0 < v.getD j 0 ∨ (v.getD i 0 = v.getD j 0 ∧ i < j)

/-- Modelled from the spec (Series contract of section 3): insertion of
an index into a list of indices sorted ascending by Speed with ties in
original order. -/
def specInsertBySpeed (g : List MeasurementRecord) (i : Nat) : List Nat → List Nat
  | [] => [i]
  | j :: js =>
    if (g.getD i default).speed < (g.getD j default).speed ∨
       ((g.getD i default).speed = (g.getD j default).speed ∧ i < j) then i :: j :: js
    else j :: specInsertBySpeed g i js

/-- Modelled from the spec: the record order of a stable ascending sort
by Speed. -/
def specStableOrder (g : List MeasurementRecord) : List Nat :=
  (List.range g.length).foldr (specInsertBySpeed g) []

/-- Modelled from the spec: the (Speed, metric) series under a stable
ascending sort by Speed. -/
def specStableSeries (g : List MeasurementRecord) (m : Metric) : List (ℚ × ℚ) :=
  (specStableOrder g).map (fun i => ((g.getD i default).speed, metricVal m (g.getD i default)))

/-- Modelled from the spec (sort contract of section 4.1): the claimed
ascending order on the raw tuple (Speed, Displacement, Deltap). -/
def specTupleKeyLe (a b : MeasurementRecord) : Prop :=
  a.speed < b.speed ∨
    (a.speed = b.speed ∧
      (a.displacement < b.displacement ∨
        (a.displacement = b.displacement ∧ a.deltap ≤ b.deltap)))

instance (a b : MeasurementRecord) : Decidable (specTupleKeyLe a b) := by
  unfold specTupleKeyLe
  infer_instance

/-- Modelled from the spec (Series Builder contract of section 4.4):
every step-th element of a list, starting from the first. -/
def everyStepTh {α : Type} (l : List α) (k : Nat) (d : α) : List α :=
  (List.range ((l.length + k - 1) / k)).map (fun j => l.getD (j * k) d)

/-- A 17-row group: all rows share Speed = 1000 and one RoundedDeltap
and are distinguished by Etat = 0..16, so a stable sort by Speed has to
keep them in input order, while 17 rows exceed the insertion-sort cutoff
of the default quicksort. -/
def ex17 : List MeasurementRecord :=
  [⟨1000, 32, 8, 0, 0, 0⟩, ⟨1000, 32, 8, 1, 0, 0⟩, ⟨1000, 32, 8, 2, 0, 0⟩,
   ⟨1000, 32, 8, 3, 0, 0⟩, ⟨1000, 32, 8, 4, 0, 0⟩, ⟨1000, 32, 8, 5, 0, 0⟩,
   ⟨1000, 32, 8, 6, 0, 0⟩, ⟨1000, 32, 8, 7, 0, 0⟩, ⟨1000, 32, 8, 8, 0, 0⟩,
   ⟨1000, 32, 8, 9, 0, 0⟩, ⟨1000, 32, 8, 10, 0, 0⟩, ⟨1000, 32, 8, 11, 0, 0⟩,
   ⟨1000, 32, 8, 12, 0, 0⟩, ⟨1000, 32, 8, 13, 0, 0⟩, ⟨1000, 32, 8, 14, 0, 0⟩,
   ⟨1000, 32, 8, 15, 0, 0⟩, ⟨1000, 32, 8, 16, 0, 0⟩]

/-- Two rows with equal Speed and strictly decreasing Displacement and
Deltap: a sort keyed on the tuple (Speed, Displacement, Deltap) would
have to exchange them. -/
def exPair : List MeasurementRecord :=
  [⟨1000, 40, 9, 1, 0, 0⟩, ⟨1000, 30, 8, 2, 0, 0⟩]

/-- One measurement row used by several concrete instantiations. -/
def exRec : MeasurementRecord := ⟨1000, 32, 8, 90, 95, 94⟩

/-- A one-row frame: its only displacement group has a single distinct
Speed value, so its pivot is degenerate. -/
def exDf : List MeasurementRecord := [exRec]

/-- A frame to which no rounded key columns have been assigned yet. -/
def dfBare : EffDataFrame := ⟨[exRec], none, none⟩

/-- Header used by the reader counterexample. -/
def hdrX : List String := ["Speed", "Displacement"]

/-- Two tokenized CSV rows; the second field of the first row does not
convert to a number. -/
def rowsX : List (List CsvCell) :=
  [[CsvCell.num 1, CsvCell.str "abc"], [CsvCell.num 2, CsvCell.num 3]]

/-- A record sitting on both rounding ties: Displacement 5/2 is halfway
between 2 and 3, and Deltap 169/20 = 8.45 is halfway between the tenths
8.4 and 8.5. -/
def exTieRec : MeasurementRecord := ⟨1000, 5/2, 169/20, 90, 95, 94⟩

/-- The rows of the conversion example: a header row and a data row. -/
def exTxtRows : List (List String) := [["Speed", "Etat"], ["1000", "90.1"]]

/- ----------------------------------------------------------------
Lemmas about the rounding rule.
---------------------------------------------------------------- -/

theorem qfloor_eq_floor (q : ℚ) : qfloor q = ⌊q⌋ :=
  Rat.floor_def.symm

theorem num_eq_mul_den (q : ℚ) : (q.num : ℚ) = q * (q.den : ℚ) := by
  have hd : ((q.den : ℚ)) ≠ 0 := by
    have := q.pos
    positivity
  exact (div_eq_iff hd).mp (Rat.num_div_den q)

theorem frac_lt_half_iff (q : ℚ) :
    2 * (q.num - qfloor q * (q.den : ℤ)) < (q.den : ℤ) ↔ q - (⌊q⌋ : ℚ) < 1/2 := by
  have hd : (0 : ℚ) < (q.den : ℚ) := by exact_mod_cast q.pos
  rw [qfloor_eq_floor]
  constructor
  · intro h
    have h' : (2 : ℚ) * ((q.num : ℚ) - (⌊q⌋ : ℚ) * (q.den : ℚ)) < (q.den : ℚ) := by
      exact_mod_cast h
    rw [num_eq_mul_den] at h'
    nlinarith
  · intro h
    have h' : (2 : ℚ) * ((q.num : ℚ) - (⌊q⌋ : ℚ) * (q.den : ℚ)) < (q.den : ℚ) := by
      rw [num_eq_mul_den]
      nlinarith
    exact_mod_cast h'

theorem half_lt_frac_iff (q : ℚ) :
    (q.den : ℤ) < 2 * (q.num - qfloor q * (q.den : ℤ)) ↔ 1/2 < q - (⌊q⌋ : ℚ) := by
  have hd : (0 : ℚ) < (q.den : ℚ) := by exact_mod_cast q.pos
  rw [qfloor_eq_floor]
  constructor
  · intro h
    have h' : (q.den : ℚ) < (2 : ℚ) * ((q.num : ℚ) - (⌊q⌋ : ℚ) * (q.den : ℚ)) := by
      exact_mod_cast h
    rw [num_eq_mul_den] at h'
    nlinarith
  · intro h
    have h' : (q.den : ℚ) < (2 : ℚ) * ((q.num : ℚ) - (⌊q⌋ : ℚ) * (q.den : ℚ)) := by
      rw [num_eq_mul_den]
      nlinarith
    exact_mod_cast h'

theorem roundHalfEven_nearest (q : ℚ) : |q - (roundHalfEven q : ℚ)| ≤ 1/2 := by
  have hfl : ((⌊q⌋ : ℚ)) ≤ q := Int.floor_le q
  have hfu : q < (⌊q⌋ : ℚ) + 1 := Int.lt_floor_add_one q
  rw [roundHalfEven]
  split_ifs with h1 h2 h3
  · rw [frac_lt_half_iff] at h1
    rw [qfloor_eq_floor, abs_of_nonneg (by linarith)]
    linarith
  · rw [half_lt_frac_iff] at h2
    rw [qfloor_eq_floor]
    push_cast
    rw [abs_of_nonpos (by linarith)]
    linarith
  · rw [frac_lt_half_iff, not_lt] at h1
    rw [half_lt_frac_iff, not_lt] at h2
    rw [qfloor_eq_floor, abs_of_nonneg (by linarith)]
    linarith
  · rw [frac_lt_half_iff, not_lt] at h1
    rw [half_lt_frac_iff, not_lt] at h2
    rw [qfloor_eq_floor]
    push_cast
    rw [abs_of_nonpos (by linarith)]
    linarith

theorem roundHalfEven_tie_even (q : ℚ) (h : q - (⌊q⌋ : ℚ) = 1/2) : Even (roundHalfEven q) := by
  rw [roundHalfEven]
  split_ifs with h1 h2 h3
  · rw [frac_lt_half_iff] at h1
    exact absurd h1 (by rw [h]; simp)
  · rw [half_lt_frac_iff] at h2
    exact absurd h2 (by rw [h]; simp)
  · rw [Int.even_iff]
    omega
  · rw [Int.even_iff]
    omega

/- ----------------------------------------------------------------
Lemmas about sortLin and firstDedup.
---------------------------------------------------------------- -/

theorem insertLe_perm {α : Type} [LinearOrder α] (x : α) :
    ∀ l : List α, (insertLe x l).Perm (x :: l)
  | [] => List.Perm.refl _
  | y :: ys => by
    rw [insertLe]
    split_ifs with h
    · exact List.Perm.refl _
    · exact ((insertLe_perm x ys).cons y).trans (List.Perm.swap x y ys)

theorem sortLin_perm {α : Type} [LinearOrder α] :
    ∀ l : List α, (sortLin l).Perm l
  | [] => List.Perm.refl _
  | x :: xs => by
    rw [sortLin, List.foldr_cons]
    exact (insertLe_perm x _).trans ((sortLin_perm xs).cons x)

theorem insertLe_pairwise {α : Type} [LinearOrder α] (x : α) :
    ∀ l : List α, l.Pairwise (· ≤ ·) → (insertLe x l).Pairwise (· ≤ ·)
  | [], _ => List.pairwise_singleton _ _
  | y :: ys, h => by
    rw [List.pairwise_cons] at h
    rw [insertLe]
    split_ifs with hxy
    · rw [List.pairwise_cons]
      refine ⟨fun b hb => ?_, List.pairwise_cons.mpr h⟩
      rcases List.mem_cons.mp hb with hb | hb
      · exact hb ▸ hxy
      · exact le_trans hxy (h.1 b hb)
    · rw [List.pairwise_cons]
      refine ⟨fun b hb => ?_, insertLe_pairwise x ys h.2⟩
      rcases List.mem_cons.mp ((insertLe_perm x ys).mem_iff.mp hb) with hb | hb
      · rw [hb]
        exact le_of_not_le hxy
      · exact h.1 b hb

theorem sortLin_pairwise {α : Type} [LinearOrder α] :
    ∀ l : List α, (sortLin l).Pairwise (· ≤ ·)
  | [] => List.Pairwise.nil
  | x :: xs => by
    rw [sortLin, List.foldr_cons]
    exact insertLe_pairwise x _ (sortLin_pairwise xs)

theorem pairwise_lt_of_le_nodup {α : Type} [LinearOrder α] :
    ∀ l : List α, l.Pairwise (· ≤ ·) → l.Nodup → l.Pairwise (· < ·)
  | [], _, _ => List.Pairwise.nil
  | a :: l, hle, hnd => by
    rw [List.pairwise_cons] at hle ⊢
    rw [List.nodup_cons] at hnd
    refine ⟨fun b hb => lt_of_le_of_ne (hle.1 b hb) (fun e => hnd.1 ?_), pairwise_lt_of_le_nodup l hle.2 hnd.2⟩
    rw [e]
    exact hb

theorem firstDedupAux_mem {α : Type} [DecidableEq α] (a : α) :
    ∀ (l seen : List α), a ∈ firstDedupAux seen l ↔ a ∈ l ∧ a ∉ seen
  | [], seen => by simp [firstDedupAux]
  | x :: xs, seen => by
    rw [firstDedupAux]
    split_ifs with hx
    · rw [firstDedupAux_mem a xs seen]
      simp only [List.mem_cons]
      constructor
      · rintro ⟨h1, h2⟩
        exact ⟨Or.inr h1, h2⟩
      · rintro ⟨h1 | h1, h2⟩
        · exact absurd (h1 ▸ hx) h2
        · exact ⟨h1, h2⟩
    · simp only [List.mem_cons, firstDedupAux_mem a xs (x :: seen)]
      constructor
      · rintro (h1 | ⟨h1, h2⟩)
        · exact ⟨Or.inl h1, h1 ▸ hx⟩
        · exact ⟨Or.inr h1, fun hs => h2 (Or.inr hs)⟩
      · rintro ⟨h1 | h1, h2⟩
        · exact Or.inl h1
        · by_cases hax : a = x
          · exact Or.inl hax
          · exact Or.inr ⟨h1, fun hs => hs.elim hax h2⟩

theorem firstDedupAux_nodup {α : Type} [DecidableEq α] :
    ∀ (l seen : List α), (firstDedupAux seen l).Nodup
  | [], _ => List.nodup_nil
  | x :: xs, seen => by
    rw [firstDedupAux]
    split_ifs with hx
    · exact firstDedupAux_nodup xs seen
    · rw [List.nodup_cons]
      refine ⟨fun hmem => ?_, firstDedupAux_nodup xs (x :: seen)⟩
      exact ((firstDedupAux_mem x xs (x :: seen)).mp hmem).2 (List.mem_cons_self x seen)

theorem firstDedup_mem {α : Type} [DecidableEq α] (a : α) (l : List α) :
    a ∈ firstDedup l ↔ a ∈ l := by
  rw [firstDedup, firstDedupAux_mem]
  simp

theorem firstDedup_nodup {α : Type} [DecidableEq α] (l : List α) :
    (firstDedup l).Nodup :=
  firstDedupAux_nodup l []

theorem sortedUnique_mem {α : Type} [DecidableEq α] [LinearOrder α] (a : α) (l : List α) :
    a ∈ sortedUnique l ↔ a ∈ l := by
  rw [sortedUnique, (sortLin_perm _).mem_iff, firstDedup_mem]

theorem sortedUnique_nodup {α : Type} [DecidableEq α] [LinearOrder α] (l : List α) :
    (sortedUnique l).Nodup :=
  ((sortLin_perm _).nodup_iff).mpr (firstDedup_nodup l)

theorem sortedUnique_pairwise_lt {α : Type} [DecidableEq α] [LinearOrder α] (l : List α) :
    (sortedUnique l).Pairwise (· < ·) :=
  pairwise_lt_of_le_nodup _ (sortLin_pairwise _) (sortedUnique_nodup l)

/- ----------------------------------------------------------------
Lemmas about the insertion-sort path of the argsort: below the
SMALL_QUICKSORT cutoff the sort is the stable ascending order on
(key, original position).
---------------------------------------------------------------- -/

theorem idxKeyLt_trans (v : List ℚ) {i j k : Nat}
    (h1 : idxKeyLt v i j) (h2 : idxKeyLt v j k) : idxKeyLt v i k := by
  rcases h1 with h1 | ⟨e1, l1⟩ <;> rcases h2 with h2 | ⟨e2, l2⟩
  · exact Or.inl (lt_trans h1 h2)
  · exact Or.inl (by rw [← e2]; exact h1)
  · exact Or.inl (by rw [e1]; exact h2)
  · exact Or.inr ⟨e1.trans e2, lt_trans l1 l2⟩

theorem insRev_perm (v : List ℚ) (vi : Nat) :
    ∀ acc : List Nat, (insRev v vi acc).Perm (vi :: acc)
  | [] => List.Perm.refl _
  | k :: rest => by
    rw [insRev]
    split_ifs with h
    · exact ((insRev_perm v vi rest).cons k).trans (List.Perm.swap vi k rest)
    · exact List.Perm.refl _

theorem insRev_pairwise (v : List ℚ) (vi : Nat) :
    ∀ acc : List Nat, acc.Pairwise (fun a b => idxKeyLt v b a) → (∀ k ∈ acc, k < vi) →
      (insRev v vi acc).Pairwise (fun a b => idxKeyLt v b a)
  | [], _, _ => List.pairwise_singleton _ _
  | k :: rest, hp, hlt => by
    rw [List.pairwise_cons] at hp
    rw [insRev]
    split_ifs with h
    · rw [List.pairwise_cons]
      refine ⟨fun b hb => ?_,
        insRev_pairwise v vi rest hp.2 (fun j hj => hlt j (List.mem_cons.mpr (Or.inr hj)))⟩
      rcases List.mem_cons.mp ((insRev_perm v vi rest).mem_iff.mp hb) with hb | hb
      · rw [hb]
        exact Or.inl h
      · exact hp.1 b hb
    · have hkvi : idxKeyLt v k vi := by
        rcases lt_or_eq_of_le (le_of_not_lt h) with h' | h'
        · exact Or.inl h'
        · exact Or.inr ⟨h', hlt k (List.mem_cons_self k rest)⟩
      rw [List.pairwise_cons]
      refine ⟨fun b hb => ?_, List.pairwise_cons.mpr hp⟩
      rcases List.mem_cons.mp hb with hb | hb
      · rw [hb]
        exact hkvi
      · exact idxKeyLt_trans v (hp.1 b hb) hkvi

theorem insFold_perm (v : List ℚ) :
    ∀ (xs acc : List Nat), (insFold v acc xs).Perm (acc ++ xs)
  | [], acc => by simp [insFold]
  | x :: xs, acc => by
    rw [insFold]
    refine (insFold_perm v xs (insRev v x acc)).trans ?_
    refine (List.Perm.append_right xs (insRev_perm v x acc)).trans ?_
    exact List.perm_middle.symm

theorem insFold_pairwise (v : List ℚ) :
    ∀ (xs acc : List Nat), acc.Pairwise (fun a b => idxKeyLt v b a) →
      (∀ k ∈ acc, ∀ x ∈ xs, k < x) → xs.Pairwise (· < ·) →
      (insFold v acc xs).Pairwise (fun a b => idxKeyLt v b a)
  | [], acc, hp, _, _ => hp
  | x :: xs, acc, hp, hcross, hxs => by
    rw [insFold]
    rw [List.pairwise_cons] at hxs
    refine insFold_pairwise v xs (insRev v x acc) ?_ ?_ hxs.2
    · exact insRev_pairwise v x acc hp (fun k hk => hcross k hk x (List.mem_cons_self x xs))
    · intro k hk y hy
      rcases List.mem_cons.mp ((insRev_perm v x acc).mem_iff.mp hk) with hk | hk
      · rw [hk]
        exact hxs.1 y hy
      · exact hcross k hk y (List.mem_cons.mpr (Or.inr hy))

theorem npArgsortL_small (v : List ℚ) (h : v.length ≤ 16) :
    npArgsortL v = (insFold v [] (List.range v.length)).reverse := by
  have hfuel : 4 * v.length + 16 = (4 * v.length + 15) + 1 := rfl
  rw [npArgsortL, hfuel]
  rw [introLoop]
  rw [if_neg (by omega)]
  show insSegment v (List.range v.length) 0 (v.length - 1) = _
  rw [insSegment, List.drop_zero]
  rcases Nat.eq_zero_or_pos v.length with h0 | h0
  · rw [h0]
    simp [applySeg, insFold]
  · have htake : v.length - 1 + 1 - 0 = v.length := by omega
    rw [htake]
    have hrange : (List.range v.length).take v.length = List.range v.length := by
      apply List.take_of_length_le
      simp
    rw [hrange, applySeg, List.take_zero, List.nil_append]
    have hslen : (insFold v [] (List.range v.length)).reverse.length = v.length := by
      rw [List.length_reverse, (insFold_perm v (List.range v.length) []).length_eq]
      simp
    rw [hslen, Nat.zero_add]
    rw [List.drop_eq_nil_of_le (by simp), List.append_nil]

theorem getD_map_speed (g : List MeasurementRecord) :
    ∀ i : Nat, (g.map (fun r => r.speed)).getD i 0 = (g.getD i default).speed := by
  induction g with
  | nil => intro i; rfl
  | cons r g ih =>
    intro i
    cases i with
    | zero => rfl
    | succ i => exact ih i

theorem map_getD_range (g : List MeasurementRecord) :
    (List.range g.length).map (fun i => g.getD i default) = g := by
  induction g with
  | nil => rfl
  | cons r g ih =>
    rw [List.length_cons, List.range_succ_eq_map, List.map_cons, List.map_map]
    show (r :: g).getD 0 default :: List.map (fun i => (r :: g).getD (i + 1) default) (List.range g.length) = r :: g
    have hfun : (fun i => (r :: g).getD (i + 1) default) = fun i => g.getD i default := by
      funext i
      rfl
    rw [hfun, ih]
    rfl

theorem speedOrder_small (g : List MeasurementRecord) (h : g.length ≤ 16) :
    (speedOrder g).Pairwise (idxKeyLt (g.map (fun r => r.speed)))
  ∧ (speedOrder g).Perm (List.range g.length) := by
  have hlen : (g.map (fun r => r.speed)).length = g.length := List.length_map _ _
  rw [speedOrder, npArgsortL_small _ (by rw [hlen]; exact h), hlen]
  constructor
  · rw [List.pairwise_reverse]
    exact insFold_pairwise _ (List.range g.length) [] List.Pairwise.nil
      (by intro k hk; cases hk) (List.pairwise_lt_range _)
  · refine (List.reverse_perm _).trans ?_
    have := insFold_perm (g.map (fun r => r.speed)) (List.range g.length) []
    rw [List.nil_append] at this
    exact this

/- ----------------------------------------------------------------
Lemma: the operational slice l[::k] takes exactly the elements at the
indices 0, k, 2k, ...
---------------------------------------------------------------- -/

theorem sliceStep_eq {α : Type} (k : Nat) (hk : 1 ≤ k) (d : α) :
    ∀ (fuel : Nat) (l : List α), l.length ≤ fuel →
      sliceStep k fuel l = (List.range ((l.length + k - 1) / k)).map (fun j => l.getD (j * k) d) := by
  intro fuel
  induction fuel with
  | zero =>
    intro l hl
    rw [List.eq_nil_of_length_eq_zero (Nat.le_zero.mp hl)]
    rw [show sliceStep k 0 ([] : List α) = [] from rfl]
    rw [List.length_nil, Nat.div_eq_of_lt (by omega)]
    rfl
  | succ fuel ih =>
    intro l hl
    cases l with
    | nil =>
      rw [show sliceStep k (fuel + 1) ([] : List α) = [] from rfl]
      rw [List.length_nil, Nat.div_eq_of_lt (by omega)]
      rfl
    | cons x xs =>
      rw [show sliceStep k (fuel + 1) (x :: xs) = x :: sliceStep k fuel (xs.drop (k - 1)) from rfl]
      rw [ih (xs.drop (k - 1)) (by
        rw [List.length_drop]
        have hlc : (x :: xs).length = xs.length + 1 := List.length_cons x xs
        omega)]
      have hdl : (xs.drop (k - 1)).length = (x :: xs).length - k := by
        rw [List.length_drop, List.length_cons]
        omega
      rw [hdl]
      have h1 : ((x :: xs).length + k - 1) / k = ((x :: xs).length - 1) / k + 1 := by
        rw [show (x :: xs).length + k - 1 = ((x :: xs).length - 1) + k from by
          rw [List.length_cons]
          omega]
        exact Nat.add_div_right _ (by omega)
      have h2 : ((x :: xs).length - k + k - 1) / k = ((x :: xs).length - 1) / k := by
        rcases le_or_lt k (x :: xs).length with hkn | hkn
        · rw [show (x :: xs).length - k + k - 1 = (x :: xs).length - 1 from by omega]
        · rw [show (x :: xs).length - k = 0 from by omega]
          rw [Nat.div_eq_of_lt (by omega), Nat.div_eq_of_lt (by omega)]
      rw [h1, h2, List.range_succ_eq_map, List.map_cons, List.map_map]
      congr 1
      · rw [Nat.zero_mul, List.getD_cons_zero]
      · have hfun : ((fun j => (x :: xs).getD (j * k) d) ∘ Nat.succ) =
            fun j => (xs.drop (k - 1)).getD (j * k) d := by
          funext j
          show (x :: xs).getD (Nat.succ j * k) d = (xs.drop (k - 1)).getD (j * k) d
          rw [List.getD_eq_getElem?_getD, List.getD_eq_getElem?_getD, List.getElem?_drop]
          rw [show Nat.succ j * k = (k - 1 + j * k) + 1 from by rw [Nat.succ_mul]; omega]
          rw [List.getElem?_cons_succ]
        rw [hfun]

/- ----------------------------------------------------------------
Lemma: association lookup over a keyed map of distinct keys.
---------------------------------------------------------------- -/

theorem assocFind_map_eq {κ β : Type} [DecidableEq κ] (f : κ → β) (k : κ) :
    ∀ keys : List κ, assocFind k (keys.map (fun x => (x, f x))) =
      if k ∈ keys then some (f k) else none
  | [] => by
    rw [List.map_nil]
    rw [show assocFind k ([] : List (κ × β)) = none from rfl]
    rw [if_neg (List.not_mem_nil k)]
  | x :: keys => by
    rw [List.map_cons]
    rw [show assocFind k ((x, f x) :: keys.map (fun y => (y, f y))) =
      if (x, f x).1 = k then some (x, f x).2 else assocFind k (keys.map (fun y => (y, f y))) from rfl]
    by_cases hx : x = k
    · subst hx
      rw [if_pos rfl, if_pos (List.mem_cons_self x keys)]
    · rw [if_neg hx, assocFind_map_eq f k keys]
      by_cases hk : k ∈ keys
      · rw [if_pos hk, if_pos (List.mem_cons.mpr (Or.inr hk))]
      · rw [if_neg hk, if_neg ?_]
        rw [List.mem_cons]
        push_neg
        exact ⟨fun e => hx e.symm, hk⟩

/-- The cell of the pivot at (s, d) is the mean of the matching records
when there are any, and absent otherwise. -/
theorem pivotCell_spec (g : List MeasurementRecord) (m : Metric) (s d : ℚ) :
    pivotCell (pivot_table g m) s d =
      if cellRecords g s d = [] then none
      else some (meanQ ((cellRecords g s d).map (metricVal m))) := by
  rw [pivotCell, pivot_table]
  rw [assocFind_map_eq (fun k => meanQ ((cellRecords g k.1 k.2).map (metricVal m))) (s, d)
    (firstDedup (g.map (fun r => (r.speed, dpKey r))))]
  have hmem : ((s, d) ∈ firstDedup (g.map (fun r => (r.speed, dpKey r)))) ↔
      cellRecords g s d ≠ [] := by
    rw [firstDedup_mem, List.mem_map]
    constructor
    · rintro ⟨r, hr, hkey⟩
      have h1 : r.speed = s := congrArg Prod.fst hkey
      have h2 : dpKey r = d := congrArg Prod.snd hkey
      have hmem2 : r ∈ cellRecords g s d := by
        rw [cellRecords, List.mem_filter]
        exact ⟨hr, by simp [h1, h2]⟩
      intro hnil
      rw [hnil] at hmem2
      cases hmem2
    · intro hne
      obtain ⟨r, hr⟩ := List.exists_mem_of_ne_nil _ hne
      rw [cellRecords, List.mem_filter] at hr
      have hpr := of_decide_eq_true hr.2
      exact ⟨r, hr.1, by rw [hpr.1, hpr.2]⟩
  by_cases hc : cellRecords g s d = []
  · rw [if_neg (fun hin => (hmem.mp hin) hc), if_pos hc]
  · rw [if_pos (hmem.mpr hc), if_neg hc]

/- ----------------------------------------------------------------
Lemma: reading an entry of a range-indexed map.
---------------------------------------------------------------- -/

theorem range_map_getD {β : Type} (f : Nat → β) (n j : Nat) (d : β) (hj : j < n) :
    ((List.range n).map f).getD j d = f j := by
  rw [List.getD_eq_getElem?_getD, List.getElem?_map, List.getElem?_range hj]
  rfl

/- ----------------------------------------------------------------
Lemmas about the target-pressure loop and the contour pipelines.
---------------------------------------------------------------- -/

theorem processTargets_skip (df : List MeasurementRecord) (t : ℚ) (h : sepFilter df t = []) :
    ∀ ts : List ℚ, (∀ e ∈ processTargets df ts, e.1 ≠ t)
      ∧ processTargets df ts = processTargets df (ts.filter (fun x => x ≠ t)) := by
  intro ts
  induction ts with
  | nil => exact ⟨fun e he => absurd he (List.not_mem_nil e), rfl⟩
  | cons t' ts ih =>
    rw [processTargets]
    by_cases he : sepFilter df t' = []
    · rw [if_pos he, List.nil_append]
      by_cases ht' : t' = t
      · rw [List.filter_cons, if_neg (by simp [ht'])]
        exact ih
      · rw [List.filter_cons, if_pos (by simp [ht'])]
        rw [processTargets, if_pos he, List.nil_append]
        exact ih
    · have ht' : t' ≠ t := fun e => he (by rw [e]; exact h)
      rw [if_neg he]
      constructor
      · intro e hemem
        rcases List.mem_append.mp hemem with hemem | hemem
        · rcases List.mem_singleton.mp hemem with rfl
          exact ht'
        · exact ih.1 e hemem
      · rw [List.filter_cons, if_pos (by simp [ht'])]
        rw [processTargets, if_neg he]
        rw [ih.2]

theorem contourOutputs_mem (df : List MeasurementRecord) (d : ℤ) (m : Metric) (p : Pivot) :
    (d, m, p) ∈ contourOutputs df ↔
      d ∈ dispKeys df ∧ m ∈ efficiency_metrics ∧ p = pivotFor df d m ∧ ¬ degeneratePivot p := by
  rw [contourOutputs, List.mem_flatMap]
  constructor
  · rintro ⟨d', hd', hmem⟩
    rw [List.mem_filterMap] at hmem
    obtain ⟨m', hm', heq⟩ := hmem
    by_cases hdeg : degeneratePivot (pivotFor df d' m')
    · rw [if_pos hdeg] at heq
      cases heq
    · rw [if_neg hdeg] at heq
      simp only [Option.some.injEq, Prod.mk.injEq] at heq
      obtain ⟨rfl, rfl, hp⟩ := heq
      exact ⟨hd', hm', hp.symm, by rw [← hp]; exact hdeg⟩
  · rintro ⟨hd, hm, hp, hdeg⟩
    refine ⟨d, hd, List.mem_filterMap.mpr ⟨m, hm, ?_⟩⟩
    rw [if_neg (by rw [← hp]; exact hdeg), hp]

theorem fieldOutputs_mem (df : List MeasurementRecord) (d : ℤ) (p : Pivot) :
    (d, p) ∈ fieldOutputs df ↔
      d ∈ dispKeys df ∧ p = pivotFor df d Metric.etat ∧ ¬ degeneratePivot p := by
  rw [fieldOutputs, List.mem_filterMap]
  constructor
  · rintro ⟨d', hd', heq⟩
    by_cases hdeg : degeneratePivot (pivotFor df d' Metric.etat)
    · rw [if_pos hdeg] at heq
      cases heq
    · rw [if_neg hdeg] at heq
      simp only [Option.some.injEq, Prod.mk.injEq] at heq
      obtain ⟨rfl, hp⟩ := heq
      exact ⟨hd', hp.symm, by rw [← hp]; exact hdeg⟩
  · rintro ⟨hd, hp, hdeg⟩
    refine ⟨d, hd, ?_⟩
    rw [if_neg (by rw [← hp]; exact hdeg), hp]

theorem degeneratePivot_metric_indep (df : List MeasurementRecord) (d : ℤ) (m m' : Metric) :
    degeneratePivot (pivotFor df d m) ↔ degeneratePivot (pivotFor df d m') :=
  Iff.rfl

/- ----------------------------------------------------------------
Claim theorems.
---------------------------------------------------------------- -/

/-- C2: for every displacement group and metric, the pivot rows are the
sorted distinct Speed values of the group, the columns the sorted
distinct RoundedDeltap values, every cell is the arithmetic mean of the
metric over the records sharing that (Speed, RoundedDeltap) pair, and a
cell with no contributing records is absent, not zero. -/
theorem C2_pivot_contract (g : List MeasurementRecord) (m : Metric) (s d : ℚ) :
    ((pivot_table g m).rows.Pairwise (· < ·)
      ∧ (s ∈ (pivot_table g m).rows ↔ ∃ r ∈ g, r.speed = s))
  ∧ ((pivot_table g m).cols.Pairwise (· < ·)
      ∧ (d ∈ (pivot_table g m).cols ↔ ∃ r ∈ g, dpKey r = d))
  ∧ pivotCell (pivot_table g m) s d =
      (if cellRecords g s d = [] then none
       else some (meanQ ((cellRecords g s d).map (metricVal m)))) := by
  refine ⟨⟨sortedUnique_pairwise_lt _, ?_⟩, ⟨sortedUnique_pairwise_lt _, ?_⟩,
    pivotCell_spec g m s d⟩
  · show s ∈ sortedUnique (g.map (fun r => r.speed)) ↔ _
    rw [sortedUnique_mem]
    exact List.mem_map
  · show d ∈ sortedUnique (g.map dpKey) ↔ _
    rw [sortedUnique_mem]
    exact List.mem_map

/-- C3: for every displacement group the plotted curve values are
obtained from the sorted distinct RoundedDeltap list by the step
max(count / 8, 1) and taking every step-th element starting from the
first. -/
theorem C3_curve_subsampling (g : List MeasurementRecord) :
    curveStep g = max ((unique_dps g).length / 8) 1
  ∧ filtered_dps g = everyStepTh (unique_dps g) (curveStep g) 0
  ∧ (unique_dps g).Pairwise (· < ·)
  ∧ (∀ a : ℚ, a ∈ unique_dps g ↔ ∃ r ∈ g, dpKey r = a) := by
  refine ⟨rfl, ?_, sortedUnique_pairwise_lt _, fun a => ?_⟩
  · rw [filtered_dps, everyStepTh]
    exact sliceStep_eq (curveStep g) (le_max_right _ 1) 0 (unique_dps g).length
      (unique_dps g) le_rfl
  · show a ∈ sortedUnique (g.map dpKey) ↔ _
    rw [sortedUnique_mem]
    exact List.mem_map

/-- C8 amended: the raw measurement rows are never mutated, and series
and pivot construction are pure; but plot_efficiency_contours and
plot_total_efficiency_field do assign the rounded key columns onto the
caller frame in place, writing exactly the values the normalizer
computes, so a frame already prepared by load_and_prepare_data is left
unchanged. -/
theorem C8_no_raw_mutation (df : EffDataFrame) (rs : List MeasurementRecord) :
    ((plot_efficiency_contours df).2.recs = df.recs)
  ∧ ((plot_total_efficiency_field df).2.recs = df.recs)
  ∧ ((plot_efficiency_contours df).2 = load_and_prepare_data df.recs)
  ∧ ((plot_total_efficiency_field df).2 = load_and_prepare_data df.recs)
  ∧ ((plot_efficiency_contours (load_and_prepare_data rs)).2 = load_and_prepare_data rs)
  ∧ ((plot_total_efficiency_field (load_and_prepare_data rs)).2 = load_and_prepare_data rs) :=
  ⟨rfl, rfl, rfl, rfl, rfl, rfl⟩

/-- C8 counterexample: on a frame without the rounded key columns,
plot_efficiency_contours returns a frame that differs from its input
(the two columns have been assigned in place), refuting the claim that
no operation changes the columns of its input. -/
theorem C8_counterexample : (plot_efficiency_contours dfBare).2 ≠ dfBare := by
  intro h
  have h2 := congrArg EffDataFrame.roundedDisplacementCol h
  exact Option.noConfusion h2

/-- C9: both rounded keys are round-to-nearest with the half-to-even
tie rule, RoundedDeltap is an integer number of tenths within 1/20 of
the raw value, and all three call sites compute the keys with the same
rule, so equal raw values receive equal group keys everywhere. -/
theorem C9_rounding_consistent (r : MeasurementRecord) :
    (|r.displacement - (dispKey r : ℚ)| ≤ 1/2)
  ∧ (r.displacement - (⌊r.displacement⌋ : ℚ) = 1/2 → Even (dispKey r))
  ∧ (dpKey r = ((roundHalfEven (r.deltap * 10) : ℤ) : ℚ) / 10 ∧ |r.deltap - dpKey r| ≤ 1/20)
  ∧ (r.deltap * 10 - (⌊r.deltap * 10⌋ : ℚ) = 1/2 → Even (roundHalfEven (r.deltap * 10)))
  ∧ keysAtLoad r = keysAtContours r ∧ keysAtContours r = keysAtField r
  ∧ keysAtLoad r = (dispKey r, dpKey r) := by
  refine ⟨roundHalfEven_nearest r.displacement, fun h => roundHalfEven_tie_even _ h,
    ⟨rfl, ?_⟩, fun h => roundHalfEven_tie_even _ h, rfl, rfl, rfl⟩
  have h := roundHalfEven_nearest (r.deltap * 10)
  rw [abs_le] at h ⊢
  rw [dpKey]
  constructor
  · linarith [h.1]
  · linarith [h.2]

/-- C9 witness: a record on both rounding ties (Displacement 5/2,
Deltap 8.45) receives even rounded keys, as the half-to-even rule
requires. -/
theorem C9_rounding_consistent_witness :
    Even (dispKey exTieRec) ∧ Even (roundHalfEven (exTieRec.deltap * 10))
  ∧ |exTieRec.displacement - (dispKey exTieRec : ℚ)| ≤ 1/2 :=
  ⟨(C9_rounding_consistent exTieRec).2.1 (by norm_num [exTieRec]),
   (C9_rounding_consistent exTieRec).2.2.2.1 (by norm_num [exTieRec]),
   (C9_rounding_consistent exTieRec).1⟩

/-- C10: the converter copies the rows and fields 1:1 in order, but
csv.writer with the default excel dialect terminates every line with
CRLF, while the module docstring and the claim promise Unix line
endings. -/
theorem C10_crlf_line_endings :
    convert exTxtRows = "Speed,Etat\r\n1000,90.1\r\n"
  ∧ convert exTxtRows ≠ "Speed,Etat\n1000,90.1\n" := by
  constructor
  · rfl
  · decide

/-- C4: a degenerate pivot (fewer than 2 rows or 2 columns) is never
rendered by either contour variant, and the outputs are exactly the
non-degenerate pivots of the remaining groups and metrics, so the loop
continues rather than aborting. -/
theorem C4_degenerate_skip (df : List MeasurementRecord) (d : ℤ) (m : Metric)
    (hdeg : degeneratePivot (pivotFor df d m)) :
    (∀ p : Pivot, (d, m, p) ∉ contourOutputs df)
  ∧ (∀ p : Pivot, (d, p) ∉ fieldOutputs df)
  ∧ (∀ (d' : ℤ) (m' : Metric) (p : Pivot), (d', m', p) ∈ contourOutputs df ↔
       d' ∈ dispKeys df ∧ m' ∈ efficiency_metrics ∧ p = pivotFor df d' m' ∧ ¬ degeneratePivot p)
  ∧ (∀ (d' : ℤ) (p : Pivot), (d', p) ∈ fieldOutputs df ↔
       d' ∈ dispKeys df ∧ p = pivotFor df d' Metric.etat ∧ ¬ degeneratePivot p) := by
  refine ⟨?_, ?_, fun d' m' p => contourOutputs_mem df d' m' p,
    fun d' p => fieldOutputs_mem df d' p⟩
  · intro p hp
    obtain ⟨_, _, hpeq, hnd⟩ := (contourOutputs_mem df d m p).mp hp
    refine hnd ?_
    rw [hpeq]
    exact hdeg
  · intro p hp
    obtain ⟨_, hpeq, hnd⟩ := (fieldOutputs_mem df d p).mp hp
    refine hnd ?_
    rw [hpeq]
    exact (degeneratePivot_metric_indep df d m Metric.etat).mp hdeg

/-- C4 witness: the one-row frame exDf has a single distinct Speed in
its only group, its pivot is degenerate, and no contour output exists
for it. -/
theorem C4_degenerate_skip_witness :
    (32, Metric.etat, pivotFor exDf 32 Metric.etat) ∉ contourOutputs exDf :=
  (C4_degenerate_skip exDf 32 Metric.etat (Or.inl (by decide))).1 (pivotFor exDf 32 Metric.etat)

/-- C6 amended: pd.read_csv does not validate the float conversion of
fields: every row is returned, in file order, with no filtering and no
deduplication, and a column whose fields do not all parse is marked
non-numeric instead of aborting the read. -/
theorem C6_reader_returns_all_rows (colNames : List String) (rows : List (List CsvCell))
    (j : Nat) (hj : j < colNames.length) :
    (read_csv colNames rows).rows = rows
  ∧ (read_csv colNames rows).rows.length = rows.length
  ∧ ((read_csv colNames rows).numericCol.getD j false = true ↔
      ∀ r ∈ rows, (r.getD j (CsvCell.num 0)).isNum = true) := by
  refine ⟨rfl, rfl, ?_⟩
  show ((List.range colNames.length).map
    (fun j => rows.all (fun r => (r.getD j (CsvCell.num 0)).isNum))).getD j false = true ↔ _
  rw [range_map_getD _ _ _ _ hj]
  exact List.all_eq_true

/-- C6 amended witness: on the concrete frame with one bad field the
rows survive unchanged and column 1 is marked non-numeric. -/
theorem C6_reader_returns_all_rows_witness :
    (read_csv hdrX rowsX).rows = rowsX
  ∧ ((read_csv hdrX rowsX).numericCol.getD 1 false = true ↔
      ∀ r ∈ rowsX, (r.getD 1 (CsvCell.num 0)).isNum = true) :=
  ⟨(C6_reader_returns_all_rows hdrX rowsX 1 (by decide)).1,
   (C6_reader_returns_all_rows hdrX rowsX 1 (by decide)).2.2⟩

/-- C6 counterexample: the field (row 0, column 1) fails conversion, so
the spec reader aborts with exactly that position, but read_csv
succeeds and returns both rows, refuting the claim that a conversion
failure fails the whole read. -/
theorem C6_counterexample :
    specReader rowsX = Except.error (0, 1)
  ∧ (read_csv hdrX rowsX).rows = rowsX
  ∧ (read_csv hdrX rowsX).rows.length = 2 :=
  ⟨rfl, rfl, rfl⟩

/-- C7: a target pressure whose filtered group is empty yields no plot
and the remaining targets are processed exactly as if the empty one
were absent. -/
theorem C7_empty_target_skip (df : List MeasurementRecord) (ts : List ℚ) (t : ℚ)
    (h : sepFilter df t = []) :
    (∀ e ∈ processTargets df ts, e.1 ≠ t)
  ∧ processTargets df ts = processTargets df (ts.filter (fun x => x ≠ t))
  ∧ (∀ e ∈ plot_efficiencies_sep df, e.1 ≠ t) :=
  ⟨(processTargets_skip df t h ts).1, (processTargets_skip df t h ts).2,
   (processTargets_skip df t h target_pressures).1⟩

/-- C7 witness: the one-row frame has Deltap 8, no row lies within 0.2
of the target 11, and the target list is processed as if 11 were
absent. -/
theorem C7_empty_target_skip_witness :
    processTargets exDf target_pressures =
      processTargets exDf (target_pressures.filter (fun x => x ≠ 11)) :=
  (C7_empty_target_skip exDf target_pressures 11 (by
    rw [sepFilter, exDf, exRec]
    rw [List.filter_cons, List.filter_nil]
    rw [if_neg ?_]
    simp only [decide_eq_true_eq]
    norm_num)).2.1

/-- C1 amended: for every group of at most 16 records (the insertion
sort cutoff of the default quicksort) and every metric, the series
builder output is sorted ascending by Speed and ties keep their input
order: the index order is increasing for the (Speed, position) key and
is a permutation of the positions. For larger groups the default
quicksort gives no stability guarantee (see the counterexample). -/
theorem C1_series_sorted_stable_small (g : List MeasurementRecord) (m : Metric)
    (h : g.length ≤ 16) :
    (seriesPairs g m).Pairwise (fun p q => p.1 ≤ q.1)
  ∧ (speedOrder g).Pairwise (fun i j =>
      (g.getD i default).speed < (g.getD j default).speed ∨
        ((g.getD i default).speed = (g.getD j default).speed ∧ i < j))
  ∧ (speedOrder g).Perm (List.range g.length) := by
  obtain ⟨hpw, hperm⟩ := speedOrder_small g h
  have hpw' : (speedOrder g).Pairwise (fun i j =>
      (g.getD i default).speed < (g.getD j default).speed ∨
        ((g.getD i default).speed = (g.getD j default).speed ∧ i < j)) := by
    refine hpw.imp ?_
    intro a b hab
    rcases hab with hab | ⟨he, hi⟩
    · rw [getD_map_speed g a, getD_map_speed g b] at hab
      exact Or.inl hab
    · rw [getD_map_speed g a, getD_map_speed g b] at he
      exact Or.inr ⟨he, hi⟩
  refine ⟨?_, hpw', hperm⟩
  rw [seriesPairs, sort_values_speed, List.map_map, List.pairwise_map]
  refine hpw'.imp ?_
  intro a b hab
  rcases hab with hab | ⟨he, _⟩
  · exact le_of_lt hab
  · exact le_of_eq he

/-- C1 amended witness: a two-row group with equal Speed values is
returned sorted and in input order. -/
theorem C1_series_sorted_stable_small_witness :
    (seriesPairs exPair Metric.etat).Pairwise (fun p q => p.1 ≤ q.1) :=
  (C1_series_sorted_stable_small exPair Metric.etat (by decide)).1

/-- C1 counterexample: on the 17-row group ex17, whose Speed values are
all equal, the series builder returns the Etat values in the order
produced by the quicksort partition pass rather than in input order, so
it differs from the stable-by-Speed series the claim requires; with all
Speed values equal, the difference is exactly a stability violation. -/
theorem C1_counterexample :
    seriesPairs ex17 Metric.etat ≠ specStableSeries ex17 Metric.etat
  ∧ (seriesPairs ex17 Metric.etat).map Prod.snd =
      [0, 14, 13, 12, 11, 10, 9, 15, 8, 6, 5, 4, 3, 2, 1, 7, 16]
  ∧ (specStableSeries ex17 Metric.etat).map Prod.snd =
      [0, 1, 2, 3, 4, 5, 6, 7, 8, 9, 10, 11, 12, 13, 14, 15, 16] := by
  refine ⟨by decide, by decide, by decide⟩

/-- C5 amended: the sort used by the two line-plot variants orders the
records ascending by the single raw key Speed (Displacement and Deltap
are not sort keys); for inputs of at most 16 records the result is the
stable ascending ordering by Speed of the input multiset. -/
theorem C5_sorted_by_speed_only_small (g : List MeasurementRecord) (h : g.length ≤ 16) :
    (sort_values_speed g).Pairwise (fun a b => a.speed ≤ b.speed)
  ∧ (sort_values_speed g).Perm g := by
  obtain ⟨hpw, hperm⟩ := speedOrder_small g h
  constructor
  · rw [sort_values_speed, List.pairwise_map]
    refine hpw.imp ?_
    intro a b hab
    rcases hab with hab | ⟨he, _⟩
    · rw [getD_map_speed g a, getD_map_speed g b] at hab
      exact le_of_lt hab
    · rw [getD_map_speed g a, getD_map_speed g b] at he
      exact le_of_eq he
  · rw [sort_values_speed]
    refine (hperm.map (fun i => g.getD i default)).trans ?_
    rw [map_getD_range]

/-- C5 amended witness: the two-row input is returned as a permutation
of itself sorted by Speed. -/
theorem C5_sorted_by_speed_only_small_witness :
    (sort_values_speed exPair).Perm exPair :=
  (C5_sorted_by_speed_only_small exPair (by decide)).2

/-- C5 counterexample: two records share Speed while Displacement and
Deltap are strictly decreasing; sort_values("Speed") leaves them in
input order, which is not ascending for the tuple key
(Speed, Displacement, Deltap) the claim names. -/
theorem C5_counterexample :
    ¬ (sort_values_speed exPair).Pairwise specTupleKeyLe
  ∧ sort_values_speed exPair = exPair := by
  refine ⟨by decide, by decide⟩
